import Mathlib

/-!
Verification development for the football-calendar repository
(`scripts/generate_ics.py`).  The Python source is shallowly embedded:
pure string building becomes Lean string functions, the fallible parts
(dictionary key access, `datetime.strptime`) become `Except`/`Option`
returning functions, and the file-writing loop of `process_league` /
`main` becomes explicit accumulation of the writes performed before a
possible failure.
-/

namespace FootballCalendar

/-! ### Decimal rendering (Python `str(n)` and `f"{n:02d}"`) -/

/-- Numeric value of a decimal digit character. -/
def dval (c : Char) : Nat := c.toNat - 48

/-- Decimal digit character for a value below ten. -/
def dchar : Nat → Char
  | 0 => '0'
  | 1 => '1'
  | 2 => '2'
  | 3 => '3'
  | 4 => '4'
  | 5 => '5'
  | 6 => '6'
  | 7 => '7'
  | 8 => '8'
  | 9 => '9'
  | _ => '*'

/-- Fuel-driven decimal digit list of a natural number (most significant first). -/
def natDigitsAux : Nat → Nat → List Char
  | 0, _ => []
  | fuel + 1, n => if n < 10 then [dchar n] else natDigitsAux fuel (n / 10) ++ [dchar (n % 10)]

def natDigits (n : Nat) : List Char := natDigitsAux (n + 1) n

/-- Decimal rendering of a natural number, as Python `str(n)` produces for `n ≥ 0`. -/
def natRepr (n : Nat) : String := ⟨natDigits n⟩

/-- Python `f"{n:02d}"`: zero-pad to at least two digits. -/
def pad2 (n : Nat) : String := if n < 10 then "0" ++ natRepr n else natRepr n

/-- Python `strftime` `%Y`: zero-pad the year to four digits. -/
def pad4 (n : Nat) : String :=
  if n < 10 then "000" ++ natRepr n
  else if n < 100 then "00" ++ natRepr n
  else if n < 1000 then "0" ++ natRepr n
  else natRepr n

/-- Value of a digit string read left to right (leading zeros allowed). -/
def decVal (cs : List Char) : Nat := cs.foldl (fun a c => 10 * a + dval c) 0

/-! ### Naive local date-times (Python `datetime`) -/

structure DT where
  year : Nat
  month : Nat
  day : Nat
  hour : Nat
  minute : Nat
deriving Repr, DecidableEq

def isLeap (y : Nat) : Bool := (y % 4 = 0 && y % 100 ≠ 0) || y % 400 = 0

def daysInMonth (y m : Nat) : Nat :=
  if m = 2 then (if isLeap y then 29 else 28)
  else if m = 4 ∨ m = 6 ∨ m = 9 ∨ m = 11 then 30
  else 31

def daysInYear (y : Nat) : Nat := if isLeap y then 366 else 365

/-- Days in all years before year `y` (counting from year 0; only differences matter). -/
def daysBeforeYear : Nat → Nat
  | 0 => 0
  | y + 1 => daysBeforeYear y + daysInYear y

/-- Days in the months of year `y` strictly before month `m` (months are 1-based). -/
def daysBeforeMonth (y m : Nat) : Nat :=
  (List.range (m - 1)).foldl (fun a i => a + daysInMonth y (i + 1)) 0

def toDays (dt : DT) : Nat :=
  daysBeforeYear dt.year + daysBeforeMonth dt.year dt.month + (dt.day - 1)

/-- Linear timestamp in minutes; the measure in which event durations are compared. -/
def toMinutes (dt : DT) : Nat := toDays dt * 1440 + dt.hour * 60 + dt.minute

/-- Python `dt + timedelta(hours=2)` on a naive datetime: plain calendar roll-over,
no daylight-saving adjustment. -/
def add2h (dt : DT) : DT :=
  if dt.hour + 2 < 24 then { dt with hour := dt.hour + 2 }
  else
    let h := dt.hour + 2 - 24
    if dt.day < daysInMonth dt.year dt.month then { dt with hour := h, day := dt.day + 1 }
    else if dt.month < 12 then
      { year := dt.year, month := dt.month + 1, day := 1, hour := h, minute := dt.minute }
    else
      { year := dt.year + 1, month := 1, day := 1, hour := h, minute := dt.minute }

/-- Range constraints the `datetime` constructor enforces. -/
def ValidDT (dt : DT) : Prop :=
  1 ≤ dt.year ∧ dt.year ≤ 9999 ∧ 1 ≤ dt.month ∧ dt.month ≤ 12 ∧
  1 ≤ dt.day ∧ dt.day ≤ daysInMonth dt.year dt.month ∧ dt.hour < 24 ∧ dt.minute < 60

instance (dt : DT) : Decidable (ValidDT dt) := by unfold ValidDT; infer_instance

/-! ### `datetime.strptime(s, "%Y-%m-%d %H:%M")`

CPython compiles the format to a regular expression whose field patterns are
`%Y ↦ \d\d\d\d`, `%m ↦ 1[0-2]|0[1-9]|[1-9]`, `%d ↦ 3[01]|[12]\d|0[1-9]|[1-9]`,
`%H ↦ 2[0-3]|[0-1]\d|\d`, `%M ↦ [0-5]\d|\d`, matched with backtracking and
requiring the whole string to be consumed; the resulting numbers then go
through the validating `datetime` constructor.  The candidate lists below
enumerate each field's alternatives in the regex's preference order and
`tryEach` realises the backtracking. -/

def digit? (c : Char) : Option Nat :=
  if '0' ≤ c ∧ c ≤ '9' then some (c.toNat - 48) else none

/-- Field `%Y`: exactly four digits. -/
def candY : List Char → List (Nat × List Char)
  | a :: b :: c :: d :: rest =>
    match digit? a, digit? b, digit? c, digit? d with
    | some w, some x, some y, some z => [(w * 1000 + x * 100 + y * 10 + z, rest)]
    | _, _, _, _ => []
  | _ => []

/-- Field `%m`: `1[0-2]|0[1-9]|[1-9]`. -/
def candM : List Char → List (Nat × List Char)
  | [] => []
  | c1 :: rest1 =>
    let one : List (Nat × List Char) :=
      match digit? c1 with
      | some d1 => if 1 ≤ d1 then [(d1, rest1)] else []
      | none => []
    match rest1 with
    | [] => one
    | c2 :: rest2 =>
      let two : List (Nat × List Char) :=
        match digit? c1, digit? c2 with
        | some d1, some d2 =>
          if (d1 = 1 ∧ d2 ≤ 2) ∨ (d1 = 0 ∧ 1 ≤ d2) then [(d1 * 10 + d2, rest2)] else []
        | _, _ => []
      two ++ one

/-- Field `%d`: `3[01]|[12]\d|0[1-9]|[1-9]`. -/
def candD : List Char → List (Nat × List Char)
  | [] => []
  | c1 :: rest1 =>
    let one : List (Nat × List Char) :=
      match digit? c1 with
      | some d1 => if 1 ≤ d1 then [(d1, rest1)] else []
      | none => []
    match rest1 with
    | [] => one
    | c2 :: rest2 =>
      let two : List (Nat × List Char) :=
        match digit? c1, digit? c2 with
        | some d1, some d2 =>
          if (d1 = 3 ∧ d2 ≤ 1) ∨ (1 ≤ d1 ∧ d1 ≤ 2) ∨ (d1 = 0 ∧ 1 ≤ d2) then
            [(d1 * 10 + d2, rest2)]
          else []
        | _, _ => []
      two ++ one

/-- Field `%H`: `2[0-3]|[0-1]\d|\d`. -/
def candH : List Char → List (Nat × List Char)
  | [] => []
  | c1 :: rest1 =>
    let one : List (Nat × List Char) :=
      match digit? c1 with
      | some d1 => [(d1, rest1)]
      | none => []
    match rest1 with
    | [] => one
    | c2 :: rest2 =>
      let two : List (Nat × List Char) :=
        match digit? c1, digit? c2 with
        | some d1, some d2 =>
          if (d1 = 2 ∧ d2 ≤ 3) ∨ d1 ≤ 1 then [(d1 * 10 + d2, rest2)] else []
        | _, _ => []
      two ++ one

/-- Field `%M`: `[0-5]\d|\d`. -/
def candMin : List Char → List (Nat × List Char)
  | [] => []
  | c1 :: rest1 =>
    let one : List (Nat × List Char) :=
      match digit? c1 with
      | some d1 => [(d1, rest1)]
      | none => []
    match rest1 with
    | [] => one
    | c2 :: rest2 =>
      let two : List (Nat × List Char) :=
        match digit? c1, digit? c2 with
        | some d1, some d2 => if d1 ≤ 5 then [(d1 * 10 + d2, rest2)] else []
        | _, _ => []
      two ++ one

/-- Try the candidates of one field in preference order, backtracking into
the continuation. -/
def tryEach {α : Type} : List (Nat × List Char) → (Nat → List Char → Option α) → Option α
  | [], _ => none
  | (v, r) :: rest, k =>
    match k v r with
    | some a => some a
    | none => tryEach rest k

/-- Match one literal character of the format string. -/
def expect {α : Type} (c : Char) (cs : List Char) (k : List Char → Option α) : Option α :=
  match cs with
  | [] => none
  | c1 :: rest => if c1 = c then k rest else none

/-- The validating `datetime(year, month, day, hour, minute)` constructor. -/
def mkDT (y mo d h mi : Nat) : Option DT :=
  if ValidDT ⟨y, mo, d, h, mi⟩ then some ⟨y, mo, d, h, mi⟩ else none

/-- Python `datetime.strptime(s, "%Y-%m-%d %H:%M")`. -/
def parseDT (s : String) : Option DT :=
  tryEach (candY s.data) (fun y r1 =>
    expect '-' r1 (fun r2 =>
      tryEach (candM r2) (fun mo r3 =>
        expect '-' r3 (fun r4 =>
          tryEach (candD r4) (fun d r5 =>
            expect ' ' r5 (fun r6 =>
              tryEach (candH r6) (fun h r7 =>
                expect ':' r7 (fun r8 =>
                  tryEach (candMin r8) (fun mi r9 =>
                    if r9 = [] then mkDT y mo d h mi else none)))))))))

/-- Python `strftime("%Y%m%dT%H%M%S")` with seconds always zero. -/
def fmtDT (dt : DT) : String :=
  pad4 dt.year ++ pad2 dt.month ++ pad2 dt.day ++ "T" ++ pad2 dt.hour ++ pad2 dt.minute ++ "00"

/-! ### Input data model

A JSON match object; required keys may be absent (`none`), which in the
Python source raises `KeyError` on access. -/

structure RawMatch where
  round : Option Nat
  date : Option String
  time : Option String
  home : Option String
  away : Option String
  venue : Option String
  note : Option String
deriving Repr, DecidableEq

/-- A parsed league JSON file (`league`, `leagueId`, `season` are read
unconditionally; `timezone` and `teams` are read with `.get`). -/
structure LeagueData where
  league : String
  leagueId : String
  season : Nat
  timezone : Option String
  teams : List (String × String)
  matchList : List RawMatch
deriving Repr, DecidableEq

/-- Python `data.get("timezone", "Asia/Shanghai")`. -/
def tzOf (d : LeagueData) : String := d.timezone.getD "Asia/Shanghai"

/-- First-match association-list lookup, as a Python dict lookup. -/
def lookupStr : List (String × String) → String → Option String
  | [], _ => none
  | (k, v) :: rest, t => if k = t then some v else lookupStr rest t

/-- Python `teams.get(team, team)`: identifier lookup with the display name as fallback. -/
def teamIdOf (teams : List (String × String)) (t : String) : String :=
  (lookupStr teams t).getD t

/-! ### Event formatting (`build_event`) -/

/-- Constant `MATCH_DURATION = timedelta(hours=2)`, applied by `add2h`. -/
def matchDurationMinutes : Nat := 120

/-- The conditional note suffix: `match.get("note")` is truthy exactly when
the note is present and non-empty. -/
def noteSuffix : Option String → String
  | some s => if s = "" then "" else "（" ++ s ++ "）"
  | none => ""

/-- Description text: `f"{season}中超联赛 第{rnd}轮"` plus the note in full-width
parentheses when `match.get("note")` is truthy (present and non-empty). -/
def descriptionOf (season rnd : Nat) (note : Option String) : String :=
  natRepr season ++ "中超联赛 第" ++ natRepr rnd ++ "轮" ++ noteSuffix note

/-- The UID line content: `f"{league_id}-{season}-{team_id}-r{rnd:02d}@csl-calendar"`. -/
def uidOf (leagueId teamId : String) (season rnd : Nat) : String :=
  leagueId ++ "-" ++ natRepr season ++ "-" ++ teamId ++ "-r" ++ pad2 rnd ++ "@csl-calendar"

/-- The list of lines of one VEVENT block. -/
def eventLines (leagueId teamId : String) (season rnd : Nat) (dtStart : DT)
    (home away : String) (m : RawMatch) (timezone : String) : List String :=
  [ "BEGIN:VEVENT",
    "UID:" ++ uidOf leagueId teamId season rnd,
    "DTSTART;TZID=" ++ timezone ++ ":" ++ fmtDT dtStart,
    "DTEND;TZID=" ++ timezone ++ ":" ++ fmtDT (add2h dtStart),
    "SUMMARY:" ++ home ++ " vs " ++ away,
    "LOCATION:" ++ m.venue.getD "",
    "DESCRIPTION:" ++ descriptionOf season rnd m.note,
    "STATUS:CONFIRMED",
    "END:VEVENT" ]

/-- Function `build_event`: key accesses and `strptime` in source order; any failure
raises out of the function. -/
def build_event (leagueId teamId : String) (season : Nat) (m : RawMatch)
    (timezone : String) : Except String (List String) :=
  match m.round with
  | none => .error "KeyError: round"
  | some rnd =>
    match m.date with
    | none => .error "KeyError: date"
    | some date =>
      match m.time with
      | none => .error "KeyError: time"
      | some time =>
        match parseDT (date ++ " " ++ time) with
        | none => .error "ValueError: time data does not match format"
        | some dtStart =>
          match m.home with
          | none => .error "KeyError: home"
          | some home =>
            match m.away with
            | none => .error "KeyError: away"
            | some away => .ok (eventLines leagueId teamId season rnd dtStart home away m timezone)

/-! ### Calendar assembly (`generate_team_ics`) -/

/-- The fixed `VTIMEZONE_CST` constant, as lines. -/
def vtimezoneLines : List String :=
  [ "BEGIN:VTIMEZONE",
    "TZID:Asia/Shanghai",
    "BEGIN:STANDARD",
    "DTSTART:19700101T000000",
    "TZOFFSETFROM:+0800",
    "TZOFFSETTO:+0800",
    "TZNAME:CST",
    "END:STANDARD",
    "END:VTIMEZONE" ]

/-- The calendar header lines. -/
def headerLines (team : String) (season : Nat) (timezone : String) : List String :=
  [ "BEGIN:VCALENDAR",
    "VERSION:2.0",
    "PRODID:-//CSL Calendar//CN",
    "CALSCALE:GREGORIAN",
    "METHOD:PUBLISH",
    "X-WR-CALNAME:" ++ team ++ " " ++ natRepr season ++ "赛程",
    "X-WR-TIMEZONE:" ++ timezone ]

/-- Left-to-right effectful map over `Except`, stopping at the first failure
(the semantics of a Python `for` loop whose body may raise). -/
def exceptMap {α β : Type} (f : α → Except String β) : List α → Except String (List β)
  | [] => .ok []
  | x :: xs =>
    match f x with
    | .error e => .error e
    | .ok y =>
      match exceptMap f xs with
      | .error e => .error e
      | .ok ys => .ok (y :: ys)

/-- Lexicographic strict comparison of character lists by code point —
Python's `str.__lt__`. -/
def charListLt : List Char → List Char → Bool
  | _, [] => false
  | [], _ :: _ => true
  | a :: as, b :: bs =>
    if a.toNat < b.toNat then true
    else if b.toNat < a.toNat then false
    else charListLt as bs

def strLt (a b : String) : Bool := charListLt a.data b.data

def strLe (a b : String) : Bool := strLt a b || decide (a = b)

/-- Sort key comparison: Python tuple order on `(x["date"], x["time"])`,
strings compared by code points. -/
def keyLE (a b : String × String) : Bool :=
  if strLt a.1 b.1 then true else if a.1 = b.1 then strLe a.2 b.2 else false

/-- Keyed match element: sort key together with the match. -/
abbrev Keyed := (String × String) × RawMatch

def kle (a b : Keyed) : Bool := keyLE a.1 b.1

/-- Stable insertion: the new element goes before the first existing element
whose key is not smaller, matching the behaviour of Python's stable sort. -/
def insertLe {α : Type} (le : α → α → Bool) (x : α) : List α → List α
  | [] => [x]
  | y :: ys => if le x y then x :: y :: ys else y :: insertLe le x ys

/-- Stable insertion sort: extensionally the unique stable sort for a total
preorder, hence a faithful model of Python's `sorted`. -/
def isort {α : Type} (le : α → α → Bool) : List α → List α
  | [] => []
  | x :: xs => insertLe le x (isort le xs)

/-- Key extraction `lambda x: (x["date"], x["time"])`; `sorted` evaluates it
on every element before comparing, so a missing key raises first. -/
def keyOf (m : RawMatch) : Except String Keyed :=
  match m.date with
  | none => .error "KeyError: date"
  | some d =>
    match m.time with
    | none => .error "KeyError: time"
    | some t => .ok ((d, t), m)

/-- Python `sorted(matches, key=lambda x: (x["date"], x["time"]))`. -/
def sortMatches (ms : List RawMatch) : Except String (List Keyed) :=
  match exceptMap keyOf ms with
  | .error e => .error e
  | .ok keyed => .ok (isort kle keyed)

/-- Function `generate_team_ics`: header, fixed timezone block, the events of the
sorted matches, footer.  The `league` parameter is accepted and unused,
exactly as in the source. -/
def generate_team_ics (team teamId : String) (season : Nat) (_league leagueId : String)
    (matchList : List RawMatch) (timezone : String) : Except String (List String) :=
  match sortMatches matchList with
  | .error e => .error e
  | .ok sortedMs =>
    match exceptMap (fun km => build_event leagueId teamId season km.2 timezone) sortedMs with
    | .error e => .error e
    | .ok evs =>
      .ok (headerLines team season timezone ++ vtimezoneLines ++ evs.flatten ++ ["END:VCALENDAR"])

/-- Serialise the line list: every line is terminated with CRLF. -/
def render (lines : List String) : String :=
  String.join (lines.map (fun s => s ++ "\r\n"))

/-! ### Per-league processing (`process_league`) -/

/-- A file written by the script: output path and full text content. -/
structure WriteOp where
  path : String
  content : String
deriving Repr, DecidableEq

/-- The grouping loop `for m in data["matches"]` accesses `m["home"]` and
`m["away"]` on every match, so the first match missing one of them raises
before any output is produced. -/
def checkHomeAway : List RawMatch → Except String Unit
  | [] => .ok ()
  | m :: ms =>
    match m.home with
    | none => .error "KeyError: home"
    | some _ =>
      match m.away with
      | none => .error "KeyError: away"
      | some _ => checkHomeAway ms

/-- The match list `team_matches[t]` of the grouping dict: each match is
appended under its home name and then under its away name (twice under the
same name when the two coincide). -/
def teamMatchList (ms : List RawMatch) (t : String) : List RawMatch :=
  ms.flatMap (fun m =>
    (if m.home.getD "" = t then [m] else []) ++ (if m.away.getD "" = t then [m] else []))

/-- Python dict key insertion: append if not already present. -/
def insKey (acc : List String) (x : String) : List String :=
  if x ∈ acc then acc else acc ++ [x]

/-- The keys of the grouping dict in insertion order. -/
def dictKeys (ms : List RawMatch) : List String :=
  (ms.flatMap (fun m => [m.home.getD "", m.away.getD ""])).foldl insKey []

/-- Python `sorted(team_matches.items())`: the team names in ascending string order
(keys are unique, so items compare by key alone). -/
def sortedTeamNames (ms : List RawMatch) : List String :=
  isort strLe (dictKeys ms)

/-- The `generate_team_ics` call `process_league` makes for one team. -/
def genForTeam (d : LeagueData) (t : String) : Except String (List String) :=
  generate_team_ics t (teamIdOf d.teams t) d.season d.league d.leagueId
    (teamMatchList d.matchList t) (tzOf d)

/-- Path `out_dir / f"{team}.ics"` with `out_dir = OUTPUT_DIR / league_id`. -/
def icsPath (d : LeagueData) (t : String) : String :=
  "calendar/" ++ d.leagueId ++ "/" ++ t ++ ".ics"

def mkWrite (d : LeagueData) (t : String) : WriteOp :=
  { path := icsPath d t, content := render ((genForTeam d t).toOption.getD []) }

/-- The per-team loop of `process_league`: each successfully generated
document is written immediately; the first failure aborts the loop, leaving
the writes already performed in place. -/
def writeLoop (d : LeagueData) : List String → List WriteOp × Option String
  | [] => ([], none)
  | t :: ts =>
    match genForTeam d t with
    | .error e => ([], some e)
    | .ok L =>
      let rest := writeLoop d ts
      ({ path := icsPath d t, content := render L } :: rest.1, rest.2)

/-- Function `process_league`: returns the writes actually performed and the
exception, if any, that escaped the call. -/
def process_league (d : LeagueData) : List WriteOp × Option String :=
  match checkHomeAway d.matchList with
  | .error e => ([], some e)
  | .ok _ => writeLoop d (sortedTeamNames d.matchList)

/-! ### Top level (`main`) -/

/-- Function `main`: process the discovered league files in order; an exception from
`process_league` propagates and terminates the loop, so later files are not
processed. -/
def mainRun : List LeagueData → List WriteOp × Option String
  | [] => ([], none)
  | d :: rest =>
    match process_league d with
    | (ws, some e) => (ws, some e)
    | (ws, none) =>
      let r := mainRun rest
      (ws ++ r.1, r.2)

instance {ε α : Type} [DecidableEq ε] [DecidableEq α] : DecidableEq (Except ε α) := fun a b =>
  match a, b with
  | .error e, .error f =>
    if h : e = f then .isTrue (by rw [h]) else .isFalse (fun hh => h (Except.error.inj hh))
  | .ok x, .ok y =>
    if h : x = y then .isTrue (by rw [h]) else .isFalse (fun hh => h (Except.ok.inj hh))
  | .error _, .ok _ => .isFalse (fun hh => Except.noConfusion hh)
  | .ok _, .error _ => .isFalse (fun hh => Except.noConfusion hh)

/-! ## Lemmas: decimal rendering -/

lemma dval_dchar {d : Nat} (h : d < 10) : dval (dchar d) = d := by
  interval_cases d <;> rfl

lemma decVal_append (xs ys : List Char) :
    decVal (xs ++ ys) = ys.foldl (fun a c => 10 * a + dval c) (decVal xs) := by
  simp [decVal, List.foldl_append]

lemma decVal_natDigitsAux : ∀ fuel n, n < fuel → decVal (natDigitsAux fuel n) = n := by
  intro fuel
  induction fuel with
  | zero => intro n h; omega
  | succ f ih =>
    intro n h
    by_cases h10 : n < 10
    · simp [natDigitsAux, h10, decVal, dval_dchar h10]
    · have hdiv : n / 10 < n := Nat.div_lt_self (by omega) (by omega)
      have hf : n / 10 < f := by omega
      simp only [natDigitsAux, h10, if_false, decVal_append]
      simp [ih _ hf, List.foldl, dval_dchar (Nat.mod_lt n (by omega))]
      omega

lemma decVal_natDigits (n : Nat) : decVal (natDigits n) = n :=
  decVal_natDigitsAux (n + 1) n (Nat.lt_succ_self n)

lemma natRepr_inj {a b : Nat} (h : natRepr a = natRepr b) : a = b := by
  have hd : natDigits a = natDigits b := congrArg String.data h
  have := decVal_natDigits a
  rw [hd, decVal_natDigits] at this
  omega

lemma decVal_pad2 (n : Nat) : decVal (pad2 n).data = n := by
  by_cases h : n < 10
  · have : (pad2 n).data = '0' :: natDigits n := by
      simp [pad2, h, natRepr]
    rw [this]
    have : decVal ('0' :: natDigits n) = decVal (natDigits n) := by
      simp [decVal, List.foldl, dval]
    rw [this, decVal_natDigits]
  · have : (pad2 n).data = natDigits n := by simp [pad2, h, natRepr]
    rw [this, decVal_natDigits]

lemma pad2_inj {a b : Nat} (h : pad2 a = pad2 b) : a = b := by
  have := decVal_pad2 a
  rw [h, decVal_pad2] at this
  omega

/-! ## Lemmas: the stable sort -/

lemma char_eq_of_toNat {a b : Char} (h : a.toNat = b.toNat) : a = b := by
  have hv : a.val = b.val := UInt32.eq_of_val_eq (Fin.ext h)
  exact Char.eq_of_val_eq hv

lemma charListLt_trichotomy :
    ∀ as bs, charListLt as bs = true ∨ charListLt bs as = true ∨ as = bs := by
  intro as
  induction as with
  | nil =>
    intro bs
    cases bs with
    | nil => right; right; rfl
    | cons b bs => left; rfl
  | cons a as ih =>
    intro bs
    cases bs with
    | nil => right; left; rfl
    | cons b bs =>
      by_cases h1 : a.toNat < b.toNat
      · left; simp [charListLt, h1]
      · by_cases h2 : b.toNat < a.toNat
        · right; left; simp [charListLt, h2]
        · have heq : a = b := char_eq_of_toNat (by omega)
          subst heq
          rcases ih bs with h | h | h
          · left; simp [charListLt, h]
          · right; left; simp [charListLt, h]
          · right; right; rw [h]

lemma strLt_trichotomy (a b : String) : strLt a b = true ∨ strLt b a = true ∨ a = b := by
  rcases charListLt_trichotomy a.data b.data with h | h | h
  · left; exact h
  · right; left; exact h
  · right; right; exact String.ext h

lemma keyLE_refl (a : String × String) : keyLE a a = true := by
  unfold keyLE
  by_cases h : strLt a.1 a.1 = true
  · rw [if_pos h]
  · rw [if_neg h, if_pos rfl]
    simp [strLe]

lemma keyLE_total (a b : String × String) : keyLE a b = true ∨ keyLE b a = true := by
  unfold keyLE
  rcases strLt_trichotomy a.1 b.1 with h1 | h1 | h1
  · left; rw [if_pos h1]
  · right; rw [if_pos h1]
  · by_cases hl : strLt a.1 b.1 = true
    · left; rw [if_pos hl]
    · have hl2 : ¬ strLt b.1 a.1 = true := by rw [h1] at hl; rw [h1]; exact hl
      rcases strLt_trichotomy a.2 b.2 with h2 | h2 | h2
      · left; rw [if_neg hl, if_pos h1]; simp [strLe, h2]
      · right; rw [if_neg hl2, if_pos h1.symm]; simp [strLe, h2]
      · left; rw [if_neg hl, if_pos h1]; simp [strLe, h2]

lemma kle_total (a b : Keyed) : kle a b = true ∨ kle b a = true := keyLE_total a.1 b.1

lemma chain'_insertLe {α : Type} (le : α → α → Bool)
    (htot : ∀ a b, le a b = true ∨ le b a = true) (x : α) :
    ∀ l : List α, l.Chain' (fun a b => le a b = true) →
      (insertLe le x l).Chain' (fun a b => le a b = true) := by
  intro l
  induction l with
  | nil => intro _; simp [insertLe]
  | cons y ys ih =>
    intro h
    by_cases hxy : le x y = true
    · simp only [insertLe]
      rw [if_pos hxy]
      exact List.Chain'.cons hxy h
    · have hyx : le y x = true := by rcases htot x y with h1 | h1; exact absurd h1 hxy; exact h1
      rw [List.chain'_cons'] at h
      have htail := ih h.2
      simp only [insertLe]
      rw [if_neg hxy, List.chain'_cons']
      refine ⟨?_, htail⟩
      intro z hz
      cases ys with
      | nil =>
        simp [insertLe] at hz
        subst hz; exact hyx
      | cons w ws =>
        simp only [insertLe] at hz
        by_cases hxw : le x w = true
        · simp [hxw] at hz; subst hz; exact hyx
        · simp [hxw] at hz
          subst hz
          exact h.1 w rfl

lemma chain'_isort {α : Type} (le : α → α → Bool)
    (htot : ∀ a b, le a b = true ∨ le b a = true) (l : List α) :
    (isort le l).Chain' (fun a b => le a b = true) := by
  induction l with
  | nil => simp [isort]
  | cons x xs ih => exact chain'_insertLe le htot x _ ih

/-- Inserting an element whose key matches the filter puts it exactly at the
front of the filtered list: elements it skips have strictly smaller keys. -/
lemma filter_insertLe_pos (x : Keyed) (k : String × String) (hx : x.1 = k) :
    ∀ l : List Keyed,
      (insertLe kle x l).filter (fun a => a.1 = k) = x :: l.filter (fun a => a.1 = k) := by
  intro l
  induction l with
  | nil => simp [insertLe, hx]
  | cons y ys ih =>
    by_cases hxy : kle x y = true
    · simp [insertLe, hxy, hx]
    · have hyk : ¬ (y.1 = k) := by
        intro hy
        apply hxy
        show keyLE x.1 y.1 = true
        rw [hx, hy]
        exact keyLE_refl k
      simp only [insertLe]
      rw [if_neg hxy, List.filter_cons, List.filter_cons]
      simp only [hyk]
      simpa [hyk] using ih

lemma filter_insertLe_neg (x : Keyed) (k : String × String) (hx : ¬ (x.1 = k)) :
    ∀ l : List Keyed,
      (insertLe kle x l).filter (fun a => a.1 = k) = l.filter (fun a => a.1 = k) := by
  intro l
  induction l with
  | nil => simp [insertLe, hx]
  | cons y ys ih =>
    by_cases hxy : kle x y = true
    · simp [insertLe, hxy, hx]
    · simp only [insertLe]
      rw [if_neg hxy, List.filter_cons, List.filter_cons]
      by_cases hy : y.1 = k <;> simp [hy, ih]

/-- Stability of the sort: for every key, the elements carrying that key
appear in the output in exactly their input order. -/
lemma isort_filter_key (l : List Keyed) (k : String × String) :
    (isort kle l).filter (fun a => a.1 = k) = l.filter (fun a => a.1 = k) := by
  induction l with
  | nil => simp [isort]
  | cons x xs ih =>
    by_cases hx : x.1 = k
    · rw [isort, filter_insertLe_pos x k hx, ih, List.filter_cons]
      simp [hx]
    · rw [isort, filter_insertLe_neg x k hx, ih, List.filter_cons]
      simp [hx]

/-! ## Lemmas: calendar arithmetic -/

lemma daysInMonth_pos (y m : Nat) : 1 ≤ daysInMonth y m := by
  unfold daysInMonth
  split
  · split <;> omega
  · split <;> omega

lemma daysBeforeMonth_succ (y m : Nat) (hm : 1 ≤ m) :
    daysBeforeMonth y (m + 1) = daysBeforeMonth y m + daysInMonth y m := by
  unfold daysBeforeMonth
  have h1 : m + 1 - 1 = (m - 1) + 1 := by omega
  have h2 : m - 1 + 1 = m := by omega
  rw [h1, List.range_succ, List.foldl_append]
  simp [h2]

lemma daysBeforeMonth_13 (y : Nat) : daysBeforeMonth y 13 = daysInYear y := by
  have hr : List.range 12 = [0, 1, 2, 3, 4, 5, 6, 7, 8, 9, 10, 11] := rfl
  by_cases h : isLeap y = true
  · simp [daysBeforeMonth, daysInYear, hr, daysInMonth, h]
  · simp [daysBeforeMonth, daysInYear, hr, daysInMonth, h]

/-- Adding the fixed two-hour match duration advances the linear timestamp by
exactly 120 minutes, across day, month and year boundaries. -/
lemma toMinutes_add2h {dt : DT} (h : ValidDT dt) :
    toMinutes (add2h dt) = toMinutes dt + 120 := by
  obtain ⟨hy1, hy2, hm1, hm2, hd1, hd2, hh, hmin⟩ := h
  unfold add2h
  by_cases hc : dt.hour + 2 < 24
  · rw [if_pos hc]
    unfold toMinutes toDays
    simp only
    omega
  · rw [if_neg hc]
    by_cases hday : dt.day < daysInMonth dt.year dt.month
    · rw [if_pos hday]
      unfold toMinutes toDays
      simp only
      omega
    · rw [if_neg hday]
      have hdm : dt.day = daysInMonth dt.year dt.month := by omega
      have hpos := daysInMonth_pos dt.year dt.month
      by_cases hm12 : dt.month < 12
      · rw [if_pos hm12]
        unfold toMinutes toDays
        simp only
        rw [daysBeforeMonth_succ dt.year dt.month hm1]
        omega
      · rw [if_neg hm12]
        have hmeq : dt.month = 12 := by omega
        unfold toMinutes toDays
        simp only
        have hby : daysBeforeYear (dt.year + 1) = daysBeforeYear dt.year + daysInYear dt.year :=
          rfl
        have hyr : daysInYear dt.year = daysBeforeMonth dt.year 12 + daysInMonth dt.year 12 := by
          rw [← daysBeforeMonth_13]
          exact daysBeforeMonth_succ dt.year 12 (by omega)
        have hb1 : daysBeforeMonth (dt.year + 1) 1 = 0 := rfl
        have hpos12 := daysInMonth_pos dt.year 12
        rw [hmeq] at hdm ⊢
        rw [hby, hyr, hb1]
        omega

/-! ## Lemmas: the `strptime` model only ever returns validated datetimes -/

lemma tryEach_some {α : Type} {cands : List (Nat × List Char)}
    {k : Nat → List Char → Option α} {a : α}
    (h : tryEach cands k = some a) : ∃ v r, k v r = some a := by
  induction cands with
  | nil => simp [tryEach] at h
  | cons c rest ih =>
    obtain ⟨v, r⟩ := c
    simp only [tryEach] at h
    cases hk : k v r with
    | some b =>
      rw [hk] at h
      simp only [Option.some.injEq] at h
      exact ⟨v, r, by rw [hk, h]⟩
    | none =>
      rw [hk] at h
      exact ih h

lemma expect_some {α : Type} {c : Char} {cs : List Char} {k : List Char → Option α} {a : α}
    (h : expect c cs k = some a) : ∃ r, k r = some a := by
  cases cs with
  | nil => exact absurd h (by simp [expect])
  | cons c1 rest =>
    have h2 : (if c1 = c then k rest else none) = some a := h
    by_cases hc : c1 = c
    · rw [if_pos hc] at h2
      exact ⟨rest, h2⟩
    · rw [if_neg hc] at h2
      simp at h2

lemma mkDT_valid {y mo d h mi : Nat} {dt : DT} (hm : mkDT y mo d h mi = some dt) :
    ValidDT dt := by
  unfold mkDT at hm
  split at hm
  · cases hm
    assumption
  · simp at hm

lemma parseDT_valid {s : String} {dt : DT} (h : parseDT s = some dt) : ValidDT dt := by
  unfold parseDT at h
  obtain ⟨y, r1, h⟩ := tryEach_some h
  obtain ⟨r2, h⟩ := expect_some h
  obtain ⟨mo, r3, h⟩ := tryEach_some h
  obtain ⟨r4, h⟩ := expect_some h
  obtain ⟨d, r5, h⟩ := tryEach_some h
  obtain ⟨r6, h⟩ := expect_some h
  obtain ⟨hh, r7, h⟩ := tryEach_some h
  obtain ⟨r8, h⟩ := expect_some h
  obtain ⟨mi, r9, h⟩ := tryEach_some h
  by_cases hr : r9 = []
  · rw [if_pos hr] at h
    exact mkDT_valid h
  · rw [if_neg hr] at h
    simp at h

/-! ## Lemmas: inversion of the fallible pipeline -/

lemma build_event_ok {lid tid : String} {season : Nat} {m : RawMatch} {tz : String}
    {L : List String} (h : build_event lid tid season m tz = .ok L) :
    ∃ rnd date time dtStart home away,
      m.round = some rnd ∧ m.date = some date ∧ m.time = some time ∧
      parseDT (date ++ " " ++ time) = some dtStart ∧
      m.home = some home ∧ m.away = some away ∧
      L = eventLines lid tid season rnd dtStart home away m tz := by
  unfold build_event at h
  split at h
  · exact Except.noConfusion h
  next rnd hr =>
    split at h
    · exact Except.noConfusion h
    next date hd =>
      split at h
      · exact Except.noConfusion h
      next time ht =>
        split at h
        · exact Except.noConfusion h
        next dtStart hp =>
          split at h
          · exact Except.noConfusion h
          next home hh =>
            split at h
            · exact Except.noConfusion h
            next away ha =>
              injection h with h1
              exact ⟨rnd, date, time, dtStart, home, away, hr, hd, ht, hp, hh, ha, h1.symm⟩

lemma exceptMap_ok {α β : Type} {f : α → Except String β} :
    ∀ {xs : List α} {ys : List β}, exceptMap f xs = .ok ys →
      List.Forall₂ (fun x y => f x = .ok y) xs ys := by
  intro xs
  induction xs with
  | nil =>
    intro ys h
    have h2 : (Except.ok [] : Except String (List β)) = .ok ys := h
    injection h2 with h3
    rw [← h3]
    exact List.Forall₂.nil
  | cons x xs ih =>
    intro ys h
    unfold exceptMap at h
    split at h
    · exact Except.noConfusion h
    next y hy =>
      split at h
      · exact Except.noConfusion h
      next ys' hys =>
        injection h with h1
        rw [← h1]
        exact List.Forall₂.cons hy (ih hys)

lemma keyOf_ok {m : RawMatch} {km : Keyed} (h : keyOf m = .ok km) :
    m.date = some km.1.1 ∧ m.time = some km.1.2 ∧ km.2 = m := by
  unfold keyOf at h
  split at h
  · exact Except.noConfusion h
  next d hd =>
    split at h
    · exact Except.noConfusion h
    next t ht =>
      injection h with h1
      rw [← h1]
      exact ⟨hd, ht, rfl⟩

lemma sortMatches_ok {ms : List RawMatch} {l : List Keyed} (h : sortMatches ms = .ok l) :
    ∃ keyed, exceptMap keyOf ms = .ok keyed ∧ l = isort kle keyed := by
  unfold sortMatches at h
  split at h
  · exact Except.noConfusion h
  next keyed hk =>
    injection h with h1
    exact ⟨keyed, hk, h1.symm⟩

lemma generate_team_ics_ok {team tid : String} {season : Nat} {lg lid : String}
    {ms : List RawMatch} {tz : String} {L : List String}
    (h : generate_team_ics team tid season lg lid ms tz = .ok L) :
    ∃ sortedMs evs, sortMatches ms = .ok sortedMs ∧
      exceptMap (fun km => build_event lid tid season km.2 tz) sortedMs = .ok evs ∧
      L = headerLines team season tz ++ vtimezoneLines ++ evs.flatten ++ ["END:VCALENDAR"] := by
  unfold generate_team_ics at h
  split at h
  · exact Except.noConfusion h
  next sortedMs hs =>
    split at h
    · exact Except.noConfusion h
    next evs he =>
      injection h with h1
      exact ⟨sortedMs, evs, hs, he, h1.symm⟩

lemma mem_insertLe {α : Type} (le : α → α → Bool) (x y : α) (l : List α) :
    y ∈ insertLe le x l ↔ y = x ∨ y ∈ l := by
  induction l with
  | nil => simp [insertLe]
  | cons z zs ih =>
    by_cases h : le x z = true
    · simp only [insertLe]
      rw [if_pos h]
      simp
    · simp only [insertLe]
      rw [if_neg h]
      simp only [List.mem_cons, ih]
      tauto

lemma mem_isort {α : Type} (le : α → α → Bool) (y : α) (l : List α) :
    y ∈ isort le l ↔ y ∈ l := by
  induction l with
  | nil => simp [isort]
  | cons x xs ih =>
    rw [isort, mem_insertLe, ih, List.mem_cons]

lemma keyed_map_snd {ms : List RawMatch} {keyed : List Keyed}
    (h : List.Forall₂ (fun m km => keyOf m = .ok km) ms keyed) :
    keyed.map Prod.snd = ms := by
  induction h with
  | nil => rfl
  | cons h1 _ ih => simp [List.map_cons, (keyOf_ok h1).2.2, ih]

lemma keyed_fields {ms : List RawMatch} {keyed : List Keyed}
    (h : List.Forall₂ (fun m km => keyOf m = .ok km) ms keyed) :
    ∀ km ∈ keyed, km.2.date = some km.1.1 ∧ km.2.time = some km.1.2 := by
  induction h with
  | nil => simp
  | cons h1 _ ih =>
    intro km hkm
    rcases List.mem_cons.mp hkm with heq | hmem
    · subst heq
      obtain ⟨hd, ht, he⟩ := keyOf_ok h1
      rw [he]
      exact ⟨hd, ht⟩
    · exact ih km hmem

lemma str_append_empty (s : String) : s ++ "" = s := by
  apply String.ext
  show s.data ++ [] = s.data
  exact List.append_nil s.data

lemma mem_pair_ifs {m x : RawMatch} {t : String} {hv av : String}
    (hhv : x.home = some hv) (hav : x.away = some av) :
    ((m ∈ if x.home.getD "" = t then [x] else []) ∨
      (m ∈ if x.away.getD "" = t then [x] else [])) ↔
      (m = x ∧ (x.home = some t ∨ x.away = some t)) := by
  rw [hhv, hav]
  simp only [Option.getD_some]
  by_cases h1 : hv = t <;> by_cases h2 : av = t <;> simp [h1, h2]

/-! ## Claims -/

/-- C3: for every league schedule whose matches all carry home and away
names, a match M with home H and away A is grouped into team T's document
exactly when T = H or T = A — M appears in the documents of H and of A and
in no other team's document. -/
theorem match_in_home_and_away_docs_only (ms : List RawMatch) (m : RawMatch) (t : String)
    (hall : ∀ x ∈ ms, x.home ≠ none ∧ x.away ≠ none) :
    m ∈ teamMatchList ms t ↔ m ∈ ms ∧ (m.home = some t ∨ m.away = some t) := by
  induction ms with
  | nil => simp [teamMatchList]
  | cons x xs ih =>
    obtain ⟨hh, ha⟩ := hall x (List.mem_cons_self x xs)
    obtain ⟨hv, hhv⟩ := Option.ne_none_iff_exists'.mp hh
    obtain ⟨av, hav⟩ := Option.ne_none_iff_exists'.mp ha
    have ihx := ih (fun y hy => hall y (List.mem_cons_of_mem x hy))
    simp only [teamMatchList, List.flatMap_cons, List.mem_append] at *
    constructor
    · intro hmem
      rcases hmem with hf | hr
      · obtain ⟨hmx, hor⟩ := (mem_pair_ifs hhv hav).mp hf
        subst hmx
        exact ⟨List.mem_cons_self m xs, hor⟩
      · obtain ⟨hmxs, hor⟩ := ihx.mp hr
        exact ⟨List.mem_cons_of_mem x hmxs, hor⟩
    · rintro ⟨hmem, hor⟩
      rcases List.mem_cons.mp hmem with hmx | hmxs
      · subst hmx
        exact Or.inl ((mem_pair_ifs hhv hav).mpr ⟨rfl, hor⟩)
      · exact Or.inr (ihx.mpr ⟨hmxs, hor⟩)

theorem match_in_home_and_away_docs_only_witness :
    (⟨some 1, some "2024-03-01", some "15:00", some "甲", some "乙", none, none⟩ : RawMatch) ∈
        teamMatchList [⟨some 1, some "2024-03-01", some "15:00", some "甲", some "乙", none, none⟩] "乙" ∧
    ¬ ((⟨some 1, some "2024-03-01", some "15:00", some "甲", some "乙", none, none⟩ : RawMatch) ∈
        teamMatchList [⟨some 1, some "2024-03-01", some "15:00", some "甲", some "乙", none, none⟩] "丙") := by
  constructor
  · exact (match_in_home_and_away_docs_only _ _ "乙" (by decide)).mpr (by decide)
  · intro hmem
    have := (match_in_home_and_away_docs_only _ _ "丙" (by decide)).mp hmem
    exact absurd this (by decide)

/-- C4: within a team's generated document the events are ordered by
(date, time) ascending — adjacent sorted elements satisfy the key order —
and the sort is stable: for every key value, the matches carrying that key
appear in the output in their input order. -/
theorem team_events_sorted_and_stable (ms : List RawMatch) (l : List Keyed)
    (h : sortMatches ms = .ok l) :
    l.Chain' (fun a b => kle a b = true) ∧
    (∀ km ∈ l, km.2.date = some km.1.1 ∧ km.2.time = some km.1.2) ∧
    ∃ keyed, exceptMap keyOf ms = .ok keyed ∧ keyed.map Prod.snd = ms ∧
      ∀ k, l.filter (fun a => a.1 = k) = keyed.filter (fun a => a.1 = k) := by
  obtain ⟨keyed, hk, hl⟩ := sortMatches_ok h
  have hfa := exceptMap_ok hk
  subst hl
  refine ⟨chain'_isort kle kle_total keyed, ?_, keyed, hk, keyed_map_snd hfa, ?_⟩
  · intro km hkm
    exact keyed_fields hfa km ((mem_isort kle km keyed).mp hkm)
  · intro k
    exact isort_filter_key keyed k

def c4m1 : RawMatch := ⟨some 2, some "2024-03-08", some "19:35", some "甲", some "乙", none, none⟩

def c4m2 : RawMatch := ⟨some 1, some "2024-03-01", some "15:00", some "甲", some "丙", none, none⟩

def c4l : List Keyed :=
  [(("2024-03-01", "15:00"), c4m2), (("2024-03-08", "19:35"), c4m1)]

theorem team_events_sorted_and_stable_witness :
    c4l.Chain' (fun a b => kle a b = true) ∧
    (∀ km ∈ c4l, km.2.date = some km.1.1 ∧ km.2.time = some km.1.2) ∧
    ∃ keyed, exceptMap keyOf [c4m1, c4m2] = .ok keyed ∧ keyed.map Prod.snd = [c4m1, c4m2] ∧
      ∀ k, c4l.filter (fun a => a.1 = k) = keyed.filter (fun a => a.1 = k) :=
  team_events_sorted_and_stable [c4m1, c4m2] c4l (by decide)

/-- C5: every generated event has end timestamp exactly two hours after its
start timestamp: the DTEND line carries `add2h` of the parsed start, and on
the linear minute scale (no daylight-saving adjustment exists in the model)
the difference is exactly 120 minutes. -/
theorem event_duration_two_hours (lid tid : String) (season : Nat) (m : RawMatch)
    (tz : String) (L : List String) (h : build_event lid tid season m tz = .ok L) :
    ∃ dtStart date time,
      m.date = some date ∧ m.time = some time ∧
      parseDT (date ++ " " ++ time) = some dtStart ∧
      L[2]? = some ("DTSTART;TZID=" ++ tz ++ ":" ++ fmtDT dtStart) ∧
      L[3]? = some ("DTEND;TZID=" ++ tz ++ ":" ++ fmtDT (add2h dtStart)) ∧
      toMinutes (add2h dtStart) = toMinutes dtStart + matchDurationMinutes := by
  obtain ⟨rnd, date, time, dtStart, home, away, hr, hd, ht, hp, hh, ha, hL⟩ := build_event_ok h
  refine ⟨dtStart, date, time, hd, ht, hp, ?_, ?_, ?_⟩
  · rw [hL]; rfl
  · rw [hL]; rfl
  · exact toMinutes_add2h (parseDT_valid hp)

def c5m : RawMatch :=
  ⟨some 1, some "2024-02-28", some "23:00", some "甲", some "乙", some "体育场", some ""⟩

theorem event_duration_two_hours_witness :
    ∃ dtStart date time,
      c5m.date = some date ∧ c5m.time = some time ∧
      parseDT (date ++ " " ++ time) = some dtStart ∧
      (eventLines "csl" "team-a" 2024 1 ⟨2024, 2, 28, 23, 0⟩ "甲" "乙" c5m "Asia/Shanghai")[2]? =
        some ("DTSTART;TZID=" ++ "Asia/Shanghai" ++ ":" ++ fmtDT dtStart) ∧
      (eventLines "csl" "team-a" 2024 1 ⟨2024, 2, 28, 23, 0⟩ "甲" "乙" c5m "Asia/Shanghai")[3]? =
        some ("DTEND;TZID=" ++ "Asia/Shanghai" ++ ":" ++ fmtDT (add2h dtStart)) ∧
      toMinutes (add2h dtStart) = toMinutes dtStart + matchDurationMinutes :=
  event_duration_two_hours "csl" "team-a" 2024 c5m "Asia/Shanghai"
    (eventLines "csl" "team-a" 2024 1 ⟨2024, 2, 28, 23, 0⟩ "甲" "乙" c5m "Asia/Shanghai")
    (by decide)

/-- C8: a team whose display name is absent from the team-name-to-identifier
mapping gets its display name verbatim as identifier; the lookup is total,
so no error is possible. -/
theorem missing_team_mapping_falls_back_to_name (teams : List (String × String)) (t : String)
    (h : lookupStr teams t = none) : teamIdOf teams t = t := by
  unfold teamIdOf
  rw [h]
  rfl

theorem missing_team_mapping_falls_back_to_name_witness :
    lookupStr [("上海海港", "shanghai-port")] "成都蓉城" = none ∧
    teamIdOf [("上海海港", "shanghai-port")] "成都蓉城" = "成都蓉城" :=
  ⟨by decide, missing_team_mapping_falls_back_to_name _ _ (by decide)⟩

/-- C9: the event description is season, fixed league label and round; the
parenthesized note is appended exactly once when the note is present and
non-empty, and an absent or empty note yields no trailing parenthetical. -/
theorem description_note_behaviour (season rnd : Nat) :
    descriptionOf season rnd none = natRepr season ++ "中超联赛 第" ++ natRepr rnd ++ "轮" ∧
    descriptionOf season rnd (some "") = natRepr season ++ "中超联赛 第" ++ natRepr rnd ++ "轮" ∧
    ∀ s : String, s ≠ "" →
      descriptionOf season rnd (some s) =
        natRepr season ++ "中超联赛 第" ++ natRepr rnd ++ "轮" ++ "（" ++ s ++ "）" := by
  refine ⟨?_, ?_, ?_⟩
  · unfold descriptionOf
    rw [show noteSuffix none = "" from rfl]
    exact str_append_empty _
  · unfold descriptionOf
    rw [show noteSuffix (some "") = "" by simp [noteSuffix]]
    exact str_append_empty _
  · intro s hs
    unfold descriptionOf
    rw [show noteSuffix (some s) = "（" ++ s ++ "）" by simp [noteSuffix, hs]]
    rw [← String.append_assoc, ← String.append_assoc]

theorem description_note_behaviour_witness :
    descriptionOf 2024 3 (some "补赛") =
      natRepr 2024 ++ "中超联赛 第" ++ natRepr 3 ++ "轮" ++ "（" ++ "补赛" ++ "）" :=
  (description_note_behaviour 2024 3).2.2 "补赛" (by decide)

lemma str_append_left_cancel {p a b : String} (h : p ++ a = p ++ b) : a = b := by
  apply String.ext
  have h2 := congrArg String.data h
  rw [String.data_append, String.data_append] at h2
  exact List.append_cancel_left h2

lemma str_append_right_cancel {s a b : String} (h : a ++ s = b ++ s) : a = b := by
  apply String.ext
  have h2 := congrArg String.data h
  rw [String.data_append, String.data_append] at h2
  exact List.append_cancel_right h2

lemma uidOf_round_inj {lid tid : String} {season r1 r2 : Nat}
    (h : uidOf lid tid season r1 = uidOf lid tid season r2) : r1 = r2 := by
  unfold uidOf at h
  have h2 : (lid ++ "-" ++ natRepr season ++ "-" ++ tid ++ "-r") ++ pad2 r1 =
      (lid ++ "-" ++ natRepr season ++ "-" ++ tid ++ "-r") ++ pad2 r2 :=
    str_append_right_cancel (s := "@csl-calendar") h
  have h3 := str_append_left_cancel h2
  have := decVal_pad2 r1
  rw [h3, decVal_pad2] at this
  omega

/-- C7 (amended): every event's UID line is
`UID:{leagueId}-{season}-{teamId}-r{round:02d}@csl-calendar` and is produced
deterministically; within one team's document two events have distinct UIDs
whenever their matches carry distinct round numbers (two matches of the same
team in the same round produce the same UID — see the counterexample). -/
theorem uid_composition_and_distinct_rounds (lid tid : String) (season : Nat) (tz : String)
    (m1 m2 : RawMatch) (L1 L2 : List String) (r1 r2 : Nat)
    (h1 : m1.round = some r1) (h2 : m2.round = some r2) (hne : r1 ≠ r2)
    (e1 : build_event lid tid season m1 tz = .ok L1)
    (e2 : build_event lid tid season m2 tz = .ok L2) :
    L1[1]? = some ("UID:" ++ uidOf lid tid season r1) ∧
    L2[1]? = some ("UID:" ++ uidOf lid tid season r2) ∧
    L1[1]? ≠ L2[1]? := by
  obtain ⟨rnd1, d1, t1, dt1, ho1, aw1, hr1, _, _, _, _, _, hL1⟩ := build_event_ok e1
  obtain ⟨rnd2, d2, t2, dt2, ho2, aw2, hr2, _, _, _, _, _, hL2⟩ := build_event_ok e2
  rw [h1] at hr1
  rw [h2] at hr2
  injection hr1 with hr1
  injection hr2 with hr2
  subst hr1
  subst hr2
  refine ⟨by rw [hL1]; rfl, by rw [hL2]; rfl, ?_⟩
  rw [hL1, hL2]
  intro hcontra
  have hs : ("UID:" ++ uidOf lid tid season r1 : String) = "UID:" ++ uidOf lid tid season r2 := by
    have : some ("UID:" ++ uidOf lid tid season r1) = some ("UID:" ++ uidOf lid tid season r2) :=
      hcontra
    injection this
  exact hne (uidOf_round_inj (str_append_left_cancel hs))

theorem uid_composition_and_distinct_rounds_witness :
    (eventLines "csl" "team-a" 2024 1 ⟨2024, 3, 1, 15, 0⟩ "甲" "乙"
        ⟨some 1, some "2024-03-01", some "15:00", some "甲", some "乙", none, none⟩
        "Asia/Shanghai")[1]? = some ("UID:" ++ uidOf "csl" "team-a" 2024 1) ∧
    (eventLines "csl" "team-a" 2024 2 ⟨2024, 3, 8, 15, 0⟩ "甲" "丙"
        ⟨some 2, some "2024-03-08", some "15:00", some "甲", some "丙", none, none⟩
        "Asia/Shanghai")[1]? = some ("UID:" ++ uidOf "csl" "team-a" 2024 2) ∧
    (eventLines "csl" "team-a" 2024 1 ⟨2024, 3, 1, 15, 0⟩ "甲" "乙"
        ⟨some 1, some "2024-03-01", some "15:00", some "甲", some "乙", none, none⟩
        "Asia/Shanghai")[1]? ≠
      (eventLines "csl" "team-a" 2024 2 ⟨2024, 3, 8, 15, 0⟩ "甲" "丙"
        ⟨some 2, some "2024-03-08", some "15:00", some "甲", some "丙", none, none⟩
        "Asia/Shanghai")[1]? :=
  uid_composition_and_distinct_rounds "csl" "team-a" 2024 "Asia/Shanghai"
    ⟨some 1, some "2024-03-01", some "15:00", some "甲", some "乙", none, none⟩
    ⟨some 2, some "2024-03-08", some "15:00", some "甲", some "丙", none, none⟩
    _ _ 1 2 rfl rfl (by decide) (by decide) (by decide)

def c7m1 : RawMatch := ⟨some 1, some "2024-03-01", some "15:00", some "Alpha", some "Beta", none, none⟩

def c7m2 : RawMatch := ⟨some 1, some "2024-03-02", some "15:00", some "Alpha", some "Gamma", none, none⟩

def c7d : LeagueData := ⟨"中超", "csl", 2024, none, [], [c7m1, c7m2]⟩

/-- C7 counterexample: team Alpha plays two different matches in round 1;
its generated document holds two events with exactly the same unique
identifier, so UID uniqueness within one team's document fails as stated. -/
theorem uid_collision_same_round :
    (genForTeam c7d "Alpha").toOption.map
      (fun L => L.count ("UID:" ++ uidOf "csl" "Alpha" 2024 1)) = some 2 := by
  decide

lemma ne_btz {s : String} {c : Char} (hs : s.data.head? = some c) (hc : c ≠ 'B') :
    s ≠ "BEGIN:VTIMEZONE" := by
  intro he
  rw [he] at hs
  have hB : ("BEGIN:VTIMEZONE" : String).data.head? = some 'B' := rfl
  rw [hB] at hs
  injection hs with h1
  exact hc h1.symm

lemma count_btz_eventLines (lid tid : String) (season rnd : Nat) (dt : DT)
    (home away : String) (m : RawMatch) (tz : String) :
    (eventLines lid tid season rnd dt home away m tz).count "BEGIN:VTIMEZONE" = 0 := by
  rw [List.count_eq_zero]
  intro hmem
  simp only [eventLines, List.mem_cons, List.not_mem_nil, or_false] at hmem
  rcases hmem with h | h | h | h | h | h | h | h | h
  · exact absurd h (by decide)
  · exact absurd h.symm (ne_btz (c := 'U') rfl (by decide))
  · exact absurd h.symm (ne_btz (c := 'D') rfl (by decide))
  · exact absurd h.symm (ne_btz (c := 'D') rfl (by decide))
  · exact absurd h.symm (ne_btz (c := 'S') rfl (by decide))
  · exact absurd h.symm (ne_btz (c := 'L') rfl (by decide))
  · exact absurd h.symm (ne_btz (c := 'D') rfl (by decide))
  · exact absurd h (by decide)
  · exact absurd h (by decide)

lemma count_btz_headerLines (team : String) (season : Nat) (tz : String) :
    (headerLines team season tz).count "BEGIN:VTIMEZONE" = 0 := by
  rw [List.count_eq_zero]
  intro hmem
  simp only [headerLines, List.mem_cons, List.not_mem_nil, or_false] at hmem
  rcases hmem with h | h | h | h | h | h | h
  · exact absurd h (by decide)
  · exact absurd h (by decide)
  · exact absurd h (by decide)
  · exact absurd h (by decide)
  · exact absurd h (by decide)
  · exact absurd h.symm (ne_btz (c := 'X') rfl (by decide))
  · exact absurd h.symm (ne_btz (c := 'X') rfl (by decide))

lemma count_btz_flatten {lid tid tz : String} {season : Nat}
    {sortedMs : List Keyed} {evs : List (List String)}
    (hfa : List.Forall₂ (fun km e => build_event lid tid season km.2 tz = .ok e) sortedMs evs) :
    evs.flatten.count "BEGIN:VTIMEZONE" = 0 := by
  induction hfa with
  | nil => rfl
  | cons h1 _ ih =>
    obtain ⟨rnd, d, t, dt, ho, aw, _, _, _, _, _, _, hL⟩ := build_event_ok h1
    rw [List.flatten_cons, List.count_append, hL, count_btz_eventLines, ih]

/-- C6 (amended): every successfully generated team document embeds exactly
one timezone definition block, and it is always the fixed Asia/Shanghai
(UTC+8, "CST") constant block, for every configured timezone name — the
block is not parameterized by the configured timezone. -/
theorem vtimezone_block_unique_and_fixed (team tid : String) (season : Nat) (lg lid : String)
    (ms : List RawMatch) (tz : String) (L : List String)
    (h : generate_team_ics team tid season lg lid ms tz = .ok L) :
    L.count "BEGIN:VTIMEZONE" = 1 ∧ ∃ pre post, L = pre ++ (vtimezoneLines ++ post) := by
  obtain ⟨sortedMs, evs, hs, he, hL⟩ := generate_team_ics_ok h
  subst hL
  constructor
  · rw [List.count_append, List.count_append, List.count_append]
    rw [count_btz_headerLines, count_btz_flatten (exceptMap_ok he)]
    rfl
  · exact ⟨headerLines team season tz, evs.flatten ++ ["END:VCALENDAR"], by
      simp [List.append_assoc]⟩

def c6m : RawMatch := ⟨some 1, some "2024-03-01", some "15:00", some "甲", some "乙", none, none⟩

def c6d : LeagueData := ⟨"中超", "csl", 2024, some "UTC", [], [c6m]⟩

/-- Modelled from the spec: a syntactically valid timezone definition block
for a configured timezone name must declare that very timezone — it opens
with BEGIN:VTIMEZONE, carries the line `TZID:` followed by the timezone
name, and closes with END:VTIMEZONE. -/
def isVTimezoneBlockFor (tz : String) (block : List String) : Prop :=
  block.head? = some "BEGIN:VTIMEZONE" ∧ ("TZID:" ++ tz) ∈ block ∧
    block.getLast? = some "END:VTIMEZONE"

instance (tz : String) (block : List String) : Decidable (isVTimezoneBlockFor tz block) := by
  unfold isVTimezoneBlockFor
  infer_instance

/-- C6 counterexample: with configured timezone "UTC" the document generated
for team 甲 contains no `TZID:UTC` line at all — the single embedded
definition block still declares Asia/Shanghai, so it is not a definition
block for the configured timezone. -/
theorem vtimezone_not_parameterized_by_configured_tz :
    tzOf c6d = "UTC" ∧
    (genForTeam c6d "甲").toOption.map (fun L => decide (("TZID:" ++ "UTC") ∈ L)) = some false ∧
    (genForTeam c6d "甲").toOption.map
      (fun L => decide (("TZID:" ++ "Asia/Shanghai") ∈ L)) = some true ∧
    ¬ isVTimezoneBlockFor "UTC" vtimezoneLines ∧
    isVTimezoneBlockFor "Asia/Shanghai" vtimezoneLines := by
  refine ⟨rfl, by decide, by decide, by decide, by decide⟩

def c6L : List String :=
  headerLines "甲" 2024 "UTC" ++ vtimezoneLines ++
    (eventLines "csl" "甲" 2024 1 ⟨2024, 3, 1, 15, 0⟩ "甲" "乙" c6m "UTC" ++ []) ++
    ["END:VCALENDAR"]

theorem vtimezone_block_unique_and_fixed_witness :
    c6L.count "BEGIN:VTIMEZONE" = 1 ∧ ∃ pre post, c6L = pre ++ (vtimezoneLines ++ post) :=
  vtimezone_block_unique_and_fixed "甲" "甲" 2024 "中超" "csl" [c6m] "UTC" c6L (by decide)

lemma count_insertLe {α : Type} [BEq α] (le : α → α → Bool) (x a : α) :
    ∀ l : List α, (insertLe le x l).count a = l.count a + (if x == a then 1 else 0) := by
  intro l
  induction l with
  | nil => simp [insertLe, List.count_cons]
  | cons y ys ih =>
    by_cases h : le x y = true
    · simp only [insertLe]
      rw [if_pos h]
      simp only [List.count_cons]
    · simp only [insertLe]
      rw [if_neg h]
      simp only [List.count_cons, ih]
      omega

lemma count_isort {α : Type} [BEq α] (le : α → α → Bool) (a : α) (l : List α) :
    (isort le l).count a = l.count a := by
  induction l with
  | nil => rfl
  | cons x xs ih => rw [isort, count_insertLe, ih, List.count_cons]

lemma mem_insKey (acc : List String) (x y : String) :
    y ∈ insKey acc x ↔ y ∈ acc ∨ y = x := by
  unfold insKey
  by_cases h : x ∈ acc
  · rw [if_pos h]
    constructor
    · exact Or.inl
    · rintro (h2 | rfl)
      · exact h2
      · exact h
  · rw [if_neg h]
    simp

lemma mem_foldl_insKey : ∀ (l : List String) (acc : List String) (y : String),
    y ∈ l.foldl insKey acc ↔ y ∈ acc ∨ y ∈ l := by
  intro l
  induction l with
  | nil => simp
  | cons x xs ih =>
    intro acc y
    rw [List.foldl_cons, ih, mem_insKey, List.mem_cons]
    tauto

lemma nodup_foldl_insKey : ∀ (l : List String) (acc : List String), acc.Nodup →
    (l.foldl insKey acc).Nodup := by
  intro l
  induction l with
  | nil => intro acc h; exact h
  | cons x xs ih =>
    intro acc h
    rw [List.foldl_cons]
    apply ih
    unfold insKey
    by_cases hx : x ∈ acc
    · rw [if_pos hx]; exact h
    · rw [if_neg hx]
      rw [List.nodup_append]
      refine ⟨h, List.nodup_singleton x, ?_⟩
      intro a ha hax
      rw [List.mem_singleton] at hax
      subst hax
      exact hx ha

lemma count_teamMatchList {m : RawMatch} {t : String}
    (hh : m.home = some t) (ha : m.away = some t) :
    ∀ ms : List RawMatch, (teamMatchList ms t).count m = 2 * ms.count m := by
  intro ms
  induction ms with
  | nil => rfl
  | cons x xs ih =>
    have hstep : teamMatchList (x :: xs) t =
        ((if x.home.getD "" = t then [x] else []) ++
          (if x.away.getD "" = t then [x] else [])) ++ teamMatchList xs t := by
      simp [teamMatchList, List.flatMap_cons]
    rw [hstep, List.count_append, List.count_append, ih, List.count_cons]
    by_cases hxm : x = m
    · subst hxm
      rw [if_pos (by rw [hh]; rfl), if_pos (by rw [ha]; rfl)]
      have hc1 : List.count x [x] = 1 := by simp
      have hc2 : (x == x) = true := by simp
      rw [hc1, hc2]
      have h0 : (if (true : Bool) = true then 1 else 0) = 1 := rfl
      rw [h0]
      omega
    · have h1 : (if x.home.getD "" = t then [x] else []).count m = 0 := by
        split
        · rw [List.count_singleton', if_neg hxm]
        · rfl
      have h2 : (if x.away.getD "" = t then [x] else []).count m = 0 := by
        split
        · rw [List.count_singleton', if_neg hxm]
        · rfl
      have h3 : (x == m) = false := by simp [hxm]
      rw [h1, h2, h3]
      have h0 : (if (false : Bool) = true then 1 else 0) = 0 := rfl
      rw [h0]
      omega

lemma count_keyed_eq {tml : List RawMatch} {keyed : List Keyed}
    (hfa : List.Forall₂ (fun x kx => keyOf x = .ok kx) tml keyed)
    {m : RawMatch} {km : Keyed} (hkm : keyOf m = .ok km) :
    keyed.count km = tml.count m := by
  induction hfa with
  | nil => rfl
  | cons hx hrest ih =>
    rename_i x kx xs ks
    rw [List.count_cons, List.count_cons, ih]
    congr 1
    by_cases hxm : x = m
    · subst hxm
      have hk : kx = km := by
        have h12 : Except.ok kx = Except.ok km := hx.symm.trans hkm
        injection h12
      subst hk
      simp
    · have hne : kx ≠ km := by
        intro he
        apply hxm
        have h1 : kx.2 = x := (keyOf_ok hx).2.2
        have h2 : km.2 = m := (keyOf_ok hkm).2.2
        rw [← h1, he, h2]
      simp [hxm, hne]

lemma count_evs_ge {lid tid : String} {season : Nat} {tz : String}
    {sorted : List Keyed} {evs : List (List String)}
    (hfa : List.Forall₂ (fun km e => build_event lid tid season km.2 tz = .ok e) sorted evs)
    {m : RawMatch} {km : Keyed} {ev : List String}
    (hkm2 : km.2 = m) (hev : build_event lid tid season m tz = .ok ev) :
    sorted.count km ≤ evs.count ev := by
  induction hfa with
  | nil => exact Nat.le_refl 0
  | cons hx hrest ih =>
    rename_i kx ex ks es
    rw [List.count_cons, List.count_cons]
    by_cases hkx : kx = km
    · have hee : ex = ev := by
        rw [hkx, hkm2] at hx
        have h12 : Except.ok ex = Except.ok ev := hx.symm.trans hev
        injection h12
      have e1 : (kx == km) = true := by simp [hkx]
      have e2 : (ex == ev) = true := by simp [hee]
      rw [e1, e2]
      have h0 : (if (true : Bool) = true then 1 else 0) = 1 := rfl
      rw [h0]
      omega
    · have e1 : (kx == km) = false := by simp [hkx]
      rw [e1]
      have h0 : (if (false : Bool) = true then 1 else 0) = 0 := rfl
      rw [h0, Nat.add_zero]
      exact Nat.le_trans ih (Nat.le_add_right _ _)

lemma forall2_mem_left {α β : Type} {R : α → β → Prop} :
    ∀ {l1 : List α} {l2 : List β}, List.Forall₂ R l1 l2 →
      ∀ {a : α}, a ∈ l1 → ∃ b ∈ l2, R a b := by
  intro l1 l2 h
  induction h with
  | nil =>
    intro a ha
    exact absurd ha (List.not_mem_nil a)
  | cons h1 h2 ih =>
    rename_i x y xs ys
    intro a ha
    rcases List.mem_cons.mp ha with heq | hmem
    · subst heq
      exact ⟨y, List.mem_cons_self y ys, h1⟩
    · obtain ⟨b, hb, hr⟩ := ih hmem
      exact ⟨b, List.mem_cons_of_mem y hb, hr⟩

/-- C10: for every league file and every match in it whose home and away
names coincide, exactly one document is produced for that team (its name
occurs exactly once among the sorted team names), the grouping attributes
the match to that team twice per occurrence, and any successfully generated
document for the team carries the match's identical event block — UID
included — at least twice among its event blocks. -/
theorem self_match_doubled_event (d : LeagueData) (m : RawMatch) (t : String)
    (hm : m ∈ d.matchList) (hh : m.home = some t) (ha : m.away = some t) :
    (sortedTeamNames d.matchList).count t = 1 ∧
    (teamMatchList d.matchList t).count m = 2 * d.matchList.count m ∧
    ∀ L, genForTeam d t = .ok L →
      ∃ ev evs sortedMs,
        build_event d.leagueId (teamIdOf d.teams t) d.season m (tzOf d) = .ok ev ∧
        sortMatches (teamMatchList d.matchList t) = .ok sortedMs ∧
        exceptMap (fun km => build_event d.leagueId (teamIdOf d.teams t) d.season km.2
          (tzOf d)) sortedMs = .ok evs ∧
        L = headerLines t d.season (tzOf d) ++ vtimezoneLines ++ evs.flatten ++
          ["END:VCALENDAR"] ∧
        2 * d.matchList.count m ≤ evs.count ev := by
  have hcnt1 : 1 ≤ d.matchList.count m := List.count_pos_iff.mpr hm
  have hctml : (teamMatchList d.matchList t).count m = 2 * d.matchList.count m :=
    count_teamMatchList hh ha d.matchList
  refine ⟨?_, hctml, ?_⟩
  · have hmemt : t ∈ dictKeys d.matchList := by
      rw [dictKeys, mem_foldl_insKey]
      right
      refine List.mem_flatMap.mpr ⟨m, hm, ?_⟩
      rw [hh]
      exact List.mem_cons_self _ _
    have hnd : (dictKeys d.matchList).Nodup :=
      nodup_foldl_insKey _ [] List.nodup_nil
    rw [sortedTeamNames, count_isort]
    exact List.count_eq_one_of_mem hnd hmemt
  · intro L hL
    unfold genForTeam at hL
    obtain ⟨sortedMs, evs, hs, he, hLeq⟩ := generate_team_ics_ok hL
    obtain ⟨keyed, hk, hso⟩ := sortMatches_ok hs
    have hfa := exceptMap_ok hk
    have hmtml : m ∈ teamMatchList d.matchList t := by
      rw [← List.count_pos_iff, hctml]
      omega
    obtain ⟨km, hkmem, hkm⟩ := forall2_mem_left hfa hmtml
    have hkeyed : keyed.count km = (teamMatchList d.matchList t).count m :=
      count_keyed_eq hfa hkm
    have hsortcnt : sortedMs.count km = keyed.count km := by
      rw [hso, count_isort]
    have hkmsort : km ∈ sortedMs := by
      rw [← List.count_pos_iff, hsortcnt, hkeyed, hctml]
      omega
    have hfb := exceptMap_ok he
    obtain ⟨ev, hevmem, hev⟩ := forall2_mem_left hfb hkmsort
    have hkm2 : km.2 = m := (keyOf_ok hkm).2.2
    rw [hkm2] at hev
    refine ⟨ev, evs, sortedMs, hev, hs, he, hLeq, ?_⟩
    calc 2 * d.matchList.count m = sortedMs.count km := by
          rw [hsortcnt, hkeyed, hctml]
      _ ≤ evs.count ev := count_evs_ge hfb hkm2 hev

def c10m : RawMatch := ⟨some 1, some "2024-03-01", some "15:00", some "同队", some "同队", none, none⟩

def c10m2 : RawMatch := ⟨some 2, some "2024-03-08", some "19:35", some "客队", some "主队", none, none⟩

def c10d : LeagueData := ⟨"中超", "csl", 2024, none, [], [c10m, c10m2]⟩

theorem self_match_doubled_event_witness :
    (sortedTeamNames c10d.matchList).count "同队" = 1 ∧
    (teamMatchList c10d.matchList "同队").count c10m = 2 * c10d.matchList.count c10m ∧
    ∀ L, genForTeam c10d "同队" = .ok L →
      ∃ ev evs sortedMs,
        build_event c10d.leagueId (teamIdOf c10d.teams "同队") c10d.season c10m
          (tzOf c10d) = .ok ev ∧
        sortMatches (teamMatchList c10d.matchList "同队") = .ok sortedMs ∧
        exceptMap (fun km => build_event c10d.leagueId (teamIdOf c10d.teams "同队")
          c10d.season km.2 (tzOf c10d)) sortedMs = .ok evs ∧
        L = headerLines "同队" c10d.season (tzOf c10d) ++ vtimezoneLines ++ evs.flatten ++
          ["END:VCALENDAR"] ∧
        2 * c10d.matchList.count c10m ≤ evs.count ev :=
  self_match_doubled_event c10d c10m "同队" (by decide) rfl rfl

/-- Success test on an `Except` result. -/
def isOkE {α : Type} : Except String α → Bool
  | .ok _ => true
  | .error _ => false

lemma writeLoop_spec (d : LeagueData) : ∀ ts : List String,
    (writeLoop d ts).1 =
      (ts.takeWhile (fun t => isOkE (genForTeam d t))).map (fun t => mkWrite d t) ∧
    ((writeLoop d ts).2 = none ↔ ∀ t ∈ ts, isOkE (genForTeam d t) = true) := by
  intro ts
  induction ts with
  | nil => simp [writeLoop]
  | cons t ts ih =>
    cases hg : genForTeam d t with
    | error e =>
      have hok : isOkE (genForTeam d t) = false := by rw [hg]; rfl
      constructor
      · rw [show writeLoop d (t :: ts) = ([], some e) by simp only [writeLoop]; rw [hg]]
        rw [List.takeWhile_cons, hok]
        rfl
      · rw [show writeLoop d (t :: ts) = ([], some e) by simp only [writeLoop]; rw [hg]]
        simp only []
        constructor
        · intro hc
          exact absurd hc (by simp)
        · intro hall
          have := hall t (List.mem_cons_self t ts)
          rw [hok] at this
          exact absurd this (by simp)
    | ok L =>
      have hok : isOkE (genForTeam d t) = true := by rw [hg]; rfl
      have hw : writeLoop d (t :: ts) =
          ({ path := icsPath d t, content := render L } :: (writeLoop d ts).1,
            (writeLoop d ts).2) := by
        simp only [writeLoop]
        rw [hg]
      have hmk : mkWrite d t = { path := icsPath d t, content := render L } := by
        unfold mkWrite
        rw [hg]
        rfl
      constructor
      · rw [hw, List.takeWhile_cons, hok]
        simp only [if_true]
        rw [List.map_cons, hmk, ih.1]
      · rw [hw]
        simp only []
        rw [ih.2]
        constructor
        · intro hall t2 ht2
          rcases List.mem_cons.mp ht2 with heq | hmem
          · subst heq; exact hok
          · exact hall t2 hmem
        · intro hall t2 ht2
          exact hall t2 (List.mem_cons_of_mem t ht2)

/-- C1 (amended): a malformed match does not always block all of a file's
output.  A missing home/away name aborts before any write, but any other
malformation (missing round/date/time, unparseable date or time) aborts the
per-team loop at the first affected team in sorted team-name order: the
documents of the teams strictly before it are written, the rest are not;
no failure occurs exactly when every team's document generates. -/
theorem process_league_stops_at_first_failing_team (d : LeagueData) :
    (isOkE (checkHomeAway d.matchList) = false →
      (process_league d).1 = [] ∧ (process_league d).2.isSome = true) ∧
    (isOkE (checkHomeAway d.matchList) = true →
      (process_league d).1 =
        ((sortedTeamNames d.matchList).takeWhile (fun t => isOkE (genForTeam d t))).map
          (fun t => mkWrite d t) ∧
      ((process_league d).2 = none ↔
        ∀ t ∈ sortedTeamNames d.matchList, isOkE (genForTeam d t) = true)) := by
  cases hc : checkHomeAway d.matchList with
  | error e =>
    have hp : process_league d = ([], some e) := by
      simp only [process_league]
      rw [hc]
    constructor
    · intro _
      rw [hp]
      exact ⟨rfl, rfl⟩
    · intro hfalse
      exact absurd hfalse (by simp [isOkE])
  | ok u =>
    have hp : process_league d = writeLoop d (sortedTeamNames d.matchList) := by
      simp only [process_league]
      rw [hc]
    constructor
    · intro hfalse
      exact absurd hfalse (by simp [isOkE])
    · intro _
      rw [hp]
      exact writeLoop_spec d (sortedTeamNames d.matchList)

def c1m1 : RawMatch := ⟨some 1, some "2024-03-01", some "15:00", some "Alpha", some "Beta", none, none⟩

def c1m2 : RawMatch := ⟨some 2, some "2024-03-08", some "bad", some "Gamma", some "Delta", none, none⟩

def c1d : LeagueData := ⟨"中超", "csl", 2024, none, [], [c1m1, c1m2]⟩

theorem process_league_stops_at_first_failing_team_witness :
    (process_league c1d).1 =
      ((sortedTeamNames c1d.matchList).takeWhile (fun t => isOkE (genForTeam c1d t))).map
        (fun t => mkWrite c1d t) ∧
    ((process_league c1d).2 = none ↔
      ∀ t ∈ sortedTeamNames c1d.matchList, isOkE (genForTeam c1d t) = true) :=
  (process_league_stops_at_first_failing_team c1d).2 (by decide)

/-- C1 counterexample: the second match of the file has an unparseable time
string, yet processing the file writes the documents of the two teams of the
first match (2 of the 4 team documents) before failing — neither "all
documents" nor "no documents". -/
theorem process_league_not_atomic :
    (∃ m ∈ c1d.matchList,
        parseDT ((m.date.getD "") ++ " " ++ (m.time.getD "")) = none) ∧
    (process_league c1d).2.isSome = true ∧
    (process_league c1d).1.length = 2 ∧
    (sortedTeamNames c1d.matchList).length = 4 := by
  decide

lemma mainRun_cons_ok {d : LeagueData} {rest : List LeagueData} {ws : List WriteOp}
    (h : process_league d = (ws, none)) :
    mainRun (d :: rest) = (ws ++ (mainRun rest).1, (mainRun rest).2) := by
  simp only [mainRun]
  rw [h]

lemma mainRun_cons_err {d : LeagueData} {rest : List LeagueData} {ws : List WriteOp}
    {e : String} (h : process_league d = (ws, some e)) :
    mainRun (d :: rest) = (ws, some e) := by
  simp only [mainRun]
  rw [h]

/-- C2 (amended): a failure in one league file is propagated to the caller —
the run's result error is exactly that file's error — and the files
processed before it are unaffected, but the run aborts there: the files
after the failing one are never processed and contribute no writes. -/
theorem failing_league_aborts_run (pre : List LeagueData) (bad : LeagueData)
    (rest : List LeagueData)
    (hpre : ∀ f ∈ pre, (process_league f).2 = none)
    (hbad : (process_league bad).2.isSome = true) :
    mainRun (pre ++ bad :: rest) =
      ((pre.map (fun f => (process_league f).1)).flatten ++ (process_league bad).1,
        (process_league bad).2) := by
  induction pre with
  | nil =>
    cases hb : process_league bad with
    | mk ws err =>
      cases err with
      | none =>
        rw [hb] at hbad
        exact absurd hbad (by simp)
      | some e =>
        rw [List.nil_append, mainRun_cons_err hb]
        simp
  | cons f fs ih =>
    have hf : (process_league f).2 = none := hpre f (List.mem_cons_self f fs)
    cases hp : process_league f with
    | mk ws err =>
      have herr : err = none := by rw [hp] at hf; exact hf
      subst herr
      have ih2 := ih (fun g hg => hpre g (List.mem_cons_of_mem f hg))
      rw [List.cons_append, mainRun_cons_ok hp, ih2]
      rw [List.map_cons, List.flatten_cons, hp]
      simp [List.append_assoc]

def c2badm : RawMatch := ⟨some 1, some "2024-03-01", some "bad", some "E队", some "F队", none, none⟩

def c2goodm : RawMatch := ⟨some 1, some "2024-03-01", some "15:00", some "G队", some "H队", none, none⟩

def c2bad : LeagueData := ⟨"中超", "bad-league", 2024, none, [], [c2badm]⟩

def c2good : LeagueData := ⟨"中超", "good-league", 2024, none, [], [c2goodm]⟩

/-- C2 counterexample: the first league file fails; processed on its own the
second file writes its two team documents, but in a run where it sorts after
the failing file it is never processed — the run produces no writes at all,
so the failure does affect the other league files of the run. -/
theorem failure_skips_remaining_files :
    (process_league c2bad).2.isSome = true ∧
    (process_league c2good).1.length = 2 ∧
    (mainRun [c2bad, c2good]).1.length = 0 ∧
    (mainRun [c2bad, c2good]).2.isSome = true := by
  decide

def c2pre : LeagueData := ⟨"中超", "a-league", 2024, none, [], [c2goodm]⟩

theorem failing_league_aborts_run_witness :
    mainRun ([c2pre] ++ c2bad :: [c2good]) =
      (([c2pre].map (fun f => (process_league f).1)).flatten ++ (process_league c2bad).1,
        (process_league c2bad).2) :=
  failing_league_aborts_run [c2pre] c2bad [c2good]
    (by intro f hf; fin_cases hf; decide) (by decide)

end FootballCalendar
